import Mathlib

/-!
Verification of the trade ingestion and anomaly-classification pipeline of the
mobydick repository.

The detector (`src/server/services/anomaly.ts`, class `AnomalyDetector`) keeps a
global sliding window of trade notional values (capacity 5000) and one per-market
window (capacity 500), and classifies each incoming trade from z-scores,
percentile rank and absolute size.  The orchestrator (`src/server/index.ts`)
polls trades, deduplicates them through a bounded `seenTransactions` set and
emits anomalous trades.  Numeric values are modelled over `ℚ` (window contents)
and `ℝ` (z-scores, which involve a square root).
-/

namespace MobyDick

/-- Input to `AnomalyDetector.addTrade` (interface `TradeInput` in anomaly.ts). -/
structure TradeInput where
  size : ℚ
  usdcSize : ℚ
  marketId : String
  timestamp : ℤ
deriving DecidableEq, Repr

/-- Severity levels returned by `AnomalyDetector.getSeverity`. -/
inductive Severity where
  | LOW
  | MEDIUM
  | HIGH
  | EXTREME
deriving DecidableEq, Repr

/-- Result record of `AnomalyDetector.addTrade` (type `AnomalyResult`). -/
structure AnomalyResult where
  isAnomaly : Prop
  zScore : ℝ
  percentile : ℚ
  suspicionScore : ℝ
  severity : Severity

/-- Mutable state of the `AnomalyDetector` class: the global window
`globalTrades`, the per-market windows `marketTrades` (a JS `Map`, modelled as
an insertion-ordered association list) and the counter `totalTradesAnalyzed`. -/
structure DetectorState where
  globalTrades : List ℚ
  marketTrades : List (String × List ℚ)
  totalTradesAnalyzed : ℕ
deriving DecidableEq, Repr

/-- The freshly constructed detector (`new AnomalyDetector()`). -/
def initState : DetectorState := ⟨[], [], 0⟩

/-- `reset()`: clears both windows and the counter. -/
def reset (_ : DetectorState) : DetectorState := ⟨[], [], 0⟩

/-- `arr.push(v)` followed by `if (arr.length > cap) arr.shift()`:
append at the back, evict the oldest (front) element once over capacity. -/
def pushWindow (cap : ℕ) (w : List ℚ) (v : ℚ) : List ℚ :=
  let w' := w ++ [v]
  if cap < w'.length then w'.tail else w'

/-- `this.marketTrades.get(k)`, with a missing key read as the freshly created
empty array (`if (!this.marketTrades.has(k)) this.marketTrades.set(k, [])`). -/
def getMarket (ms : List (String × List ℚ)) (k : String) : List ℚ :=
  match ms with
  | [] => []
  | (k', w) :: rest => if k' = k then w else getMarket rest k

/-- `this.marketTrades.set(k, w)`: JS `Map.set` updates an existing key in
place and appends a new key in insertion order. -/
def setMarket (ms : List (String × List ℚ)) (k : String) (w : List ℚ) :
    List (String × List ℚ) :=
  match ms with
  | [] => [(k, w)]
  | (k', w') :: rest =>
    if k' = k then (k, w) :: rest else (k', w') :: setMarket rest k w

/-- State effect of `addTrade` (anomaly.ts lines 17-35): bump the counter and
push the notional value into the global window and the trade's market window. -/
def updateState (s : DetectorState) (t : TradeInput) : DetectorState :=
  { globalTrades := pushWindow 5000 s.globalTrades t.usdcSize
    marketTrades := setMarket s.marketTrades t.marketId
      (pushWindow 500 (getMarket s.marketTrades t.marketId) t.usdcSize)
    totalTradesAnalyzed := s.totalTradesAnalyzed + 1 }

/-- `dataset.reduce((a, b) => a + b, 0) / dataset.length`. -/
def mean (ds : List ℚ) : ℚ := ds.sum / ds.length

/-- `dataset.reduce((sum, val) => sum + Math.pow(val - mean, 2), 0) /
dataset.length` — the population variance. -/
def variance (ds : List ℚ) : ℚ :=
  (ds.map (fun x => (x - mean ds) ^ 2)).sum / ds.length

/-- `Math.sqrt(variance)`. -/
noncomputable def stddev (ds : List ℚ) : ℝ := Real.sqrt ((variance ds : ℚ) : ℝ)

open Classical in
/-- `AnomalyDetector.calculateZScore` (anomaly.ts lines 64-75). -/
noncomputable def calculateZScore (value : ℚ) (dataset : List ℚ) : ℝ :=
  if dataset.length < 10 then 0
  else if stddev dataset = 0 then 0
  else ((value : ℝ) - ((mean dataset : ℚ) : ℝ)) / stddev dataset

/-- `sorted.findIndex((v) => v >= value)`: index of the first element `≥ value`. -/
def firstIdxGe (value : ℚ) : List ℚ → Option ℕ
  | [] => none
  | x :: xs => if value ≤ x then some 0 else (firstIdxGe value xs).map (· + 1)

/-- `AnomalyDetector.calculatePercentile` (anomaly.ts lines 77-85): sort an
ascending snapshot, find the first index `≥ value`, return `index / length * 100`
(`100` when there is none, `50` on an empty window). -/
def calculatePercentile (value : ℚ) (dataset : List ℚ) : ℚ :=
  if dataset.length = 0 then 50
  else
    let sorted := dataset.insertionSort (· ≤ ·)
    match firstIdxGe value sorted with
    | none => 100
    | some index => ((index : ℚ) / sorted.length) * 100

/-- The absolute-size step bonus of `calculateSuspicionScore`
(anomaly.ts lines 100-105), highest threshold first. -/
def sizeBonus (usdcSize : ℚ) : ℚ :=
  if usdcSize > 100000 then 30
  else if usdcSize > 50000 then 25
  else if usdcSize > 25000 then 20
  else if usdcSize > 10000 then 15
  else if usdcSize > 5000 then 10
  else 0

/-- `AnomalyDetector.calculateSuspicionScore` (anomaly.ts lines 87-108):
accumulate the capped z-score and percentile contributions and the size bonus,
then clamp into `[0, 100]`. -/
noncomputable def calculateSuspicionScore (zScore : ℝ) (percentile : ℝ)
    (usdcSize : ℚ) : ℝ :=
  let score := (0 : ℝ) + min 40 (|zScore| * 12) + min 30 ((percentile - 50) * 0.6)
    + (sizeBonus usdcSize : ℝ)
  min 100 (max 0 score)

open Classical in
/-- `AnomalyDetector.getSeverity` (anomaly.ts lines 110-118). -/
noncomputable def getSeverity (zScore : ℝ) (usdcSize : ℚ) : Severity :=
  if zScore > 4 ∨ usdcSize > 100000 then .EXTREME
  else if zScore > 3 ∨ usdcSize > 50000 then .HIGH
  else if zScore > 2.5 ∨ usdcSize > 25000 then .MEDIUM
  else .LOW

/-- The classification half of `addTrade` (anomaly.ts lines 37-61), reading the
windows as they stand after the trade has been pushed into them. -/
noncomputable def classify (s : DetectorState) (t : TradeInput) : AnomalyResult :=
  let globalZScore := calculateZScore t.usdcSize s.globalTrades
  let marketZScore := calculateZScore t.usdcSize (getMarket s.marketTrades t.marketId)
  let percentile := calculatePercentile t.usdcSize s.globalTrades
  let combinedZScore := globalZScore * 0.4 + marketZScore * 0.6
  { isAnomaly := combinedZScore > 1.5 ∨ t.usdcSize > 5000
    zScore := combinedZScore
    percentile := percentile
    suspicionScore := calculateSuspicionScore combinedZScore (percentile : ℝ) t.usdcSize
    severity := getSeverity combinedZScore t.usdcSize }

/-- `AnomalyDetector.addTrade`: update both windows, then classify against the
updated windows. -/
noncomputable def addTrade (s : DetectorState) (t : TradeInput) :
    DetectorState × AnomalyResult :=
  (updateState s t, classify (updateState s t) t)

/-- Result of `AnomalyDetector.getStats` (anomaly.ts lines 120-134). -/
structure StatsView where
  globalTradeCount : ℕ
  marketCount : ℕ
  avgTradeSize : ℚ
deriving DecidableEq, Repr

/-- `AnomalyDetector.getStats`. -/
def getStats (s : DetectorState) : StatsView :=
  { globalTradeCount := s.totalTradesAnalyzed
    marketCount := s.marketTrades.length
    avgTradeSize :=
      if 0 < s.globalTrades.length then mean s.globalTrades else 0 }

/-- Feeding a list of trades through `addTrade` one after the other
(state effect only; `addTrade` returns `updateState` as its state component). -/
def runDetector (s : DetectorState) (ts : List TradeInput) : DetectorState :=
  ts.foldl updateState s

theorem addTrade_fst (s : DetectorState) (t : TradeInput) :
    (addTrade s t).1 = updateState s t := rfl

/-- C1: the anomaly flag is exactly `combinedZ > 1.5 ∨ notional > 5000`, and the
combined z-score returned by `addTrade` is `0.4 * globalZ + 0.6 * marketZ`
computed over the freshly updated global and per-market windows. -/
theorem C1_isAnomaly_iff_combined (s : DetectorState) (t : TradeInput) :
    ((addTrade s t).2.isAnomaly ↔
      ((addTrade s t).2.zScore > 1.5 ∨ t.usdcSize > 5000)) ∧
    (addTrade s t).2.zScore =
      0.4 * calculateZScore t.usdcSize (updateState s t).globalTrades +
      0.6 * calculateZScore t.usdcSize
        (getMarket (updateState s t).marketTrades t.marketId) := by
  constructor
  · exact Iff.rfl
  · show calculateZScore t.usdcSize (updateState s t).globalTrades * 0.4 +
      calculateZScore t.usdcSize
        (getMarket (updateState s t).marketTrades t.marketId) * 0.6 = _
    ring

/-- The clamp keeps every suspicion score inside `[0, 100]`. -/
theorem suspicion_mem_Icc (z p : ℝ) (u : ℚ) :
    0 ≤ calculateSuspicionScore z p u ∧ calculateSuspicionScore z p u ≤ 100 := by
  unfold calculateSuspicionScore
  constructor
  · exact le_min (by norm_num) (le_max_left 0 _)
  · exact min_le_left _ _

/-- C5: the suspicion score is
`clamp(0, 100, min(40, |z| * 12) + min(30, (p - 50) * 0.6) + sizeBucketBonus u)`,
the size bonus follows the fixed thresholds highest-first, and the final score
always lies in `[0, 100]`. -/
theorem C5_suspicionScore_formula (z p : ℝ) (u : ℚ) :
    calculateSuspicionScore z p u =
      min 100 (max 0
        (min 40 (|z| * 12) + min 30 ((p - 50) * 0.6) + (sizeBonus u : ℝ))) ∧
    (100000 < u → sizeBonus u = 30) ∧
    (50000 < u → u ≤ 100000 → sizeBonus u = 25) ∧
    (25000 < u → u ≤ 50000 → sizeBonus u = 20) ∧
    (10000 < u → u ≤ 25000 → sizeBonus u = 15) ∧
    (5000 < u → u ≤ 10000 → sizeBonus u = 10) ∧
    (u ≤ 5000 → sizeBonus u = 0) ∧
    0 ≤ calculateSuspicionScore z p u ∧ calculateSuspicionScore z p u ≤ 100 := by
  refine ⟨by unfold calculateSuspicionScore; ring_nf, ?_, ?_, ?_, ?_, ?_, ?_,
    suspicion_mem_Icc z p u⟩ <;>
    · intros
      unfold sizeBonus
      split_ifs <;> first | rfl | (exfalso; linarith)

/-- Witness for C5 at concrete inputs: one value in each size bucket. -/
theorem C5_suspicionScore_formula_witness :
    (sizeBonus 150000 = 30 ∧ sizeBonus 60000 = 25 ∧ sizeBonus 30000 = 20 ∧
      sizeBonus 15000 = 15 ∧ sizeBonus 6000 = 10 ∧ sizeBonus 1000 = 0) ∧
    calculateSuspicionScore 0 0 1000 =
      min 100 (max 0
        (min 40 (|(0 : ℝ)| * 12) + min 30 (((0 : ℝ) - 50) * 0.6) +
          ((sizeBonus 1000 : ℚ) : ℝ))) := by
  refine ⟨⟨?_, ?_, ?_, ?_, ?_, ?_⟩, (C5_suspicionScore_formula 0 0 1000).1⟩
  · exact (C5_suspicionScore_formula 0 0 150000).2.1 (by norm_num)
  · exact (C5_suspicionScore_formula 0 0 60000).2.2.1 (by norm_num) (by norm_num)
  · exact (C5_suspicionScore_formula 0 0 30000).2.2.2.1 (by norm_num) (by norm_num)
  · exact (C5_suspicionScore_formula 0 0 15000).2.2.2.2.1 (by norm_num) (by norm_num)
  · exact (C5_suspicionScore_formula 0 0 6000).2.2.2.2.2.1 (by norm_num) (by norm_num)
  · exact (C5_suspicionScore_formula 0 0 1000).2.2.2.2.2.2.1 (by norm_num)

/-- C6: severity is decided by the ordered threshold chain (EXTREME, then HIGH,
then MEDIUM, else LOW, first match wins), and a trade with notional 150000 whose
combined z-score evaluates to 5 yields severity EXTREME, `isAnomaly` true, and a
suspicion score of at most 100. -/
theorem C6_severity_tiers (z : ℝ) (u : ℚ) (s : DetectorState) (t : TradeInput) :
    (getSeverity z u = .EXTREME ↔ (z > 4 ∨ u > 100000)) ∧
    (getSeverity z u = .HIGH ↔
      (¬(z > 4 ∨ u > 100000) ∧ (z > 3 ∨ u > 50000))) ∧
    (getSeverity z u = .MEDIUM ↔
      (¬(z > 4 ∨ u > 100000) ∧ ¬(z > 3 ∨ u > 50000) ∧ (z > 2.5 ∨ u > 25000))) ∧
    (getSeverity z u = .LOW ↔
      (¬(z > 4 ∨ u > 100000) ∧ ¬(z > 3 ∨ u > 50000) ∧
        ¬(z > 2.5 ∨ u > 25000))) ∧
    (t.usdcSize = 150000 → (addTrade s t).2.zScore = 5 →
      (addTrade s t).2.severity = .EXTREME ∧ (addTrade s t).2.isAnomaly ∧
        (addTrade s t).2.suspicionScore ≤ 100) := by
  refine ⟨?_, ?_, ?_, ?_, ?_⟩
  · unfold getSeverity; split_ifs <;> simp_all
  · unfold getSeverity; split_ifs <;> simp_all
  · unfold getSeverity; split_ifs <;> simp_all
  · unfold getSeverity; split_ifs <;> simp_all
  · intro hu hz
    have hsev : (addTrade s t).2.severity = getSeverity (addTrade s t).2.zScore t.usdcSize := rfl
    have hscore : (addTrade s t).2.suspicionScore =
        calculateSuspicionScore (addTrade s t).2.zScore
          ((addTrade s t).2.percentile : ℝ) t.usdcSize := rfl
    refine ⟨?_, ?_, ?_⟩
    · rw [hsev, hz, hu]
      unfold getSeverity
      rw [if_pos (Or.inl (by norm_num))]
    · show (addTrade s t).2.zScore > 1.5 ∨ t.usdcSize > 5000
      exact Or.inl (by rw [hz]; norm_num)
    · rw [hscore]
      exact (suspicion_mem_Icc _ _ _).2

/-- 25 identical warm-up trades of 149974 USDC on one market. -/
def c6Trade : TradeInput := ⟨1, 149974, "M", 0⟩

/-- The scenario trade: notional 150000 on the same market. -/
def c6Final : TradeInput := ⟨1, 150000, "M", 0⟩

/-- Detector state after the 25 warm-up trades. -/
def c6State : DetectorState := runDetector initState (List.replicate 25 c6Trade)

/-- Both windows after the scenario trade: 25 copies of 149974 and one 150000
(mean 149975, population variance 25, standard deviation 5). -/
def c6Window : List ℚ := List.replicate 25 149974 ++ [150000]

set_option maxRecDepth 4000 in
lemma c6_global : (updateState c6State c6Final).globalTrades = c6Window := by
  rfl

set_option maxRecDepth 4000 in
lemma c6_market :
    getMarket (updateState c6State c6Final).marketTrades "M" = c6Window := by
  rfl

lemma c6_mean : mean c6Window = 149975 := by
  unfold mean c6Window
  simp [List.sum_append, List.sum_replicate]
  norm_num

lemma c6_z : calculateZScore 150000 c6Window = 5 := by
  have hmean : mean c6Window = 149975 := c6_mean
  have hvar : variance c6Window = 25 := by
    unfold variance
    rw [hmean]
    unfold c6Window
    simp [List.map_append, List.map_replicate, List.sum_append,
      List.sum_replicate]
    norm_num
  have hsd : stddev c6Window = 5 := by
    unfold stddev
    rw [hvar, show ((25 : ℚ) : ℝ) = 5 ^ 2 by norm_num]
    exact Real.sqrt_sq (by norm_num)
  have hlen : ¬(c6Window.length < 10) := by
    unfold c6Window
    simp
  unfold calculateZScore
  rw [if_neg hlen, if_neg (by rw [hsd]; norm_num), hsd, hmean]
  norm_num

lemma c6_zscore : (addTrade c6State c6Final).2.zScore = 5 := by
  have h : (addTrade c6State c6Final).2.zScore =
      calculateZScore c6Final.usdcSize (updateState c6State c6Final).globalTrades
        * 0.4 +
      calculateZScore c6Final.usdcSize
        (getMarket (updateState c6State c6Final).marketTrades c6Final.marketId)
        * 0.6 := rfl
  have hu : c6Final.usdcSize = (150000 : ℚ) := rfl
  have hm : c6Final.marketId = "M" := rfl
  rw [h, hu, hm, c6_global, c6_market, c6_z]
  norm_num

/-- Witness for C6: the concrete 26-trade run realising notional 150000 with
combined z-score exactly 5. -/
theorem C6_severity_tiers_witness :
    c6Final.usdcSize = 150000 ∧ (addTrade c6State c6Final).2.zScore = 5 ∧
    ((addTrade c6State c6Final).2.severity = .EXTREME ∧
      (addTrade c6State c6Final).2.isAnomaly ∧
      (addTrade c6State c6Final).2.suspicionScore ≤ 100) :=
  ⟨rfl, c6_zscore,
    (C6_severity_tiers 0 0 c6State c6Final).2.2.2.2 rfl c6_zscore⟩

/-- On a window whose values are all equal, mean is that value and the
population variance is 0. -/
lemma variance_const {ds : List ℚ} {c : ℚ} (hne : ds ≠ []) (h : ∀ x ∈ ds, x = c) :
    variance ds = 0 := by
  have hlen : (ds.length : ℚ) ≠ 0 := by
    simpa using hne
  have hsum : ds.sum = ds.length • c := List.sum_eq_card_nsmul ds c h
  have hmean : mean ds = c := by
    unfold mean
    rw [hsum, nsmul_eq_mul, mul_comm, mul_div_assoc, div_self hlen, mul_one]
  unfold variance
  rw [List.sum_eq_zero, zero_div]
  intro x hx
  obtain ⟨y, hy, rfl⟩ := List.mem_map.1 hx
  rw [hmean, h y hy]
  ring

/-- C3: `calculateZScore` returns 0 on a window of fewer than 10 observations;
with at least 10 observations it returns `(value - mean) / stddev` (population
standard deviation) when the deviation is nonzero and 0 when it is zero; and on
an all-equal window it returns 0 regardless of window size. -/
theorem C3_zscore_spec (v : ℚ) (ds : List ℚ) :
    (ds.length < 10 → calculateZScore v ds = 0) ∧
    (10 ≤ ds.length → stddev ds ≠ 0 →
      calculateZScore v ds = ((v : ℝ) - ((mean ds : ℚ) : ℝ)) / stddev ds) ∧
    (10 ≤ ds.length → stddev ds = 0 → calculateZScore v ds = 0) ∧
    (∀ c : ℚ, (∀ x ∈ ds, x = c) → calculateZScore v ds = 0) := by
  refine ⟨?_, ?_, ?_, ?_⟩
  · intro h
    unfold calculateZScore
    rw [if_pos h]
  · intro hlen hsd
    unfold calculateZScore
    rw [if_neg (by omega), if_neg hsd]
  · intro hlen hsd
    unfold calculateZScore
    rw [if_neg (by omega), if_pos hsd]
  · intro c hc
    by_cases hlen : ds.length < 10
    · unfold calculateZScore
      rw [if_pos hlen]
    · have hne : ds ≠ [] := by
        intro h
        rw [h] at hlen
        simp at hlen
      have hsd : stddev ds = 0 := by
        unfold stddev
        rw [variance_const hne hc]
        simp
      unfold calculateZScore
      rw [if_neg hlen, if_pos hsd]

/-- Witness for C3: a short window, a 10-observation window with standard
deviation 1 (five 1s and five 3s), and a constant 10-observation window. -/
theorem C3_zscore_spec_witness :
    (([1, 2, 3] : List ℚ).length < 10 ∧ calculateZScore 9 [1, 2, 3] = 0) ∧
    (10 ≤ ([1, 1, 1, 1, 1, 3, 3, 3, 3, 3] : List ℚ).length ∧
      stddev [1, 1, 1, 1, 1, 3, 3, 3, 3, 3] ≠ 0 ∧
      calculateZScore 7 [1, 1, 1, 1, 1, 3, 3, 3, 3, 3] =
        ((7 : ℝ) - ((mean [1, 1, 1, 1, 1, 3, 3, 3, 3, 3] : ℚ) : ℝ)) /
          stddev [1, 1, 1, 1, 1, 3, 3, 3, 3, 3]) ∧
    ((∀ x ∈ List.replicate 10 (4 : ℚ), x = 4) ∧
      calculateZScore 9 (List.replicate 10 4) = 0) := by
  have hsd : stddev [1, 1, 1, 1, 1, 3, 3, 3, 3, 3] = 1 := by
    have hmean : mean [1, 1, 1, 1, 1, 3, 3, 3, 3, 3] = 2 := by
      unfold mean
      norm_num
    have hvar : variance [1, 1, 1, 1, 1, 3, 3, 3, 3, 3] = 1 := by
      unfold variance
      rw [hmean]
      norm_num
    unfold stddev
    rw [hvar]
    simp
  refine ⟨⟨by norm_num, (C3_zscore_spec 9 [1, 2, 3]).1 (by norm_num)⟩,
    ⟨by norm_num, by rw [hsd]; norm_num,
      (C3_zscore_spec 7 _).2.1 (by norm_num) (by rw [hsd]; norm_num)⟩,
    ⟨by simp, (C3_zscore_spec 9 _).2.2.2 4 (by simp)⟩⟩

/-- The rank used by `calculatePercentile`: the index of the first element
`≥ value`, or the window length when every element is smaller. -/
def rankOf (v : ℚ) (l : List ℚ) : ℕ :=
  match firstIdxGe v l with
  | none => l.length
  | some i => i

lemma firstIdxGe_cons (v a : ℚ) (t : List ℚ) :
    firstIdxGe v (a :: t) =
      if v ≤ a then some 0 else (firstIdxGe v t).map (· + 1) := rfl

/-- In an ascending window, the index of the first element `≥ v` is the number
of elements strictly below `v`. -/
lemma rankOf_sorted (v : ℚ) (l : List ℚ) (h : l.Sorted (· ≤ ·)) :
    rankOf v l = l.countP (fun x => decide (x < v)) := by
  induction l with
  | nil => rfl
  | cons a t ih =>
    rw [List.sorted_cons] at h
    by_cases hva : v ≤ a
    · have h0 : rankOf v (a :: t) = 0 := by
        unfold rankOf
        rw [firstIdxGe_cons, if_pos hva]
      rw [h0, eq_comm, List.countP_eq_zero]
      intro x hx
      simp only [decide_eq_true_eq, not_lt]
      rcases List.mem_cons.1 hx with rfl | hxt
      · exact hva
      · exact hva.trans (h.1 x hxt)
    · have ha : a < v := not_le.1 hva
      have hr : rankOf v (a :: t) = rankOf v t + 1 := by
        unfold rankOf
        rw [firstIdxGe_cons, if_neg hva]
        cases hf : firstIdxGe v t <;> simp [hf]
      rw [hr, List.countP_cons, ih h.2]
      simp [ha]

/-- On a nonempty window, `calculatePercentile` returns
`100 * (#elements < value) / length`. -/
lemma percentile_eq_countP (v : ℚ) (ds : List ℚ) (h : ds ≠ []) :
    calculatePercentile v ds =
      100 * (ds.countP (fun x => decide (x < v)) : ℚ) / ds.length := by
  have hlen0 : ds.length ≠ 0 := by simpa using h
  unfold calculatePercentile
  rw [if_neg hlen0]
  have hperm : List.Perm (ds.insertionSort (· ≤ ·)) ds :=
    List.perm_insertionSort _ ds
  have hsorted : (ds.insertionSort (· ≤ ·)).Sorted (· ≤ ·) :=
    List.sorted_insertionSort _ ds
  have hcount : (ds.insertionSort (· ≤ ·)).countP (fun x => decide (x < v)) =
      ds.countP (fun x => decide (x < v)) := hperm.countP_eq _
  have hlen : (ds.insertionSort (· ≤ ·)).length = ds.length := hperm.length_eq
  have hrank := rankOf_sorted v _ hsorted
  have hq : (ds.length : ℚ) ≠ 0 := by simpa using h
  cases hf : firstIdxGe v (ds.insertionSort (· ≤ ·)) with
  | none =>
    have hcl : ds.countP (fun x => decide (x < v)) = ds.length := by
      rw [← hcount, ← hlen, ← hrank]
      unfold rankOf
      rw [hf]
    simp only [hf, hcl]
    field_simp
  | some i =>
    have hci : (i : ℕ) = ds.countP (fun x => decide (x < v)) := by
      rw [← hcount, ← hrank]
      unfold rankOf
      rw [hf]
    simp only [hf, hlen]
    rw [← hci]
    ring

/-- C4: `calculatePercentile` returns 50 on an empty window; on a nonempty
window it returns `100 * rank / length` where the rank (first sorted index
`≥ value`) equals the number of window elements below the value — in particular
100 when the value exceeds every element — and on `[10, 20, 30]` querying 25 it
returns `200 / 3`. -/
theorem C4_percentile_spec (v : ℚ) (ds : List ℚ) :
    (ds = [] → calculatePercentile v ds = 50) ∧
    (ds ≠ [] → calculatePercentile v ds =
      100 * (ds.countP (fun x => decide (x < v)) : ℚ) / ds.length) ∧
    (ds ≠ [] → (∀ x ∈ ds, x < v) → calculatePercentile v ds = 100) ∧
    calculatePercentile 25 [10, 20, 30] = 200 / 3 := by
  refine ⟨?_, percentile_eq_countP v ds, ?_, ?_⟩
  · intro h
    subst h
    rfl
  · intro hne hall
    rw [percentile_eq_countP v ds hne]
    have hcl : ds.countP (fun x => decide (x < v)) = ds.length :=
      List.countP_eq_length.2 fun x hx => by
        simpa using hall x hx
    have hq : (ds.length : ℚ) ≠ 0 := by simpa using hne
    rw [hcl]
    field_simp
  · rw [percentile_eq_countP 25 [10, 20, 30] (by simp)]
    norm_num [List.countP_cons]

/-- Witness for C4: the empty window, the `[10, 20, 30]` window of the spec, and
a window every element of which is below the queried value. -/
theorem C4_percentile_spec_witness :
    calculatePercentile 25 ([] : List ℚ) = 50 ∧
    (([10, 20, 30] : List ℚ) ≠ [] ∧ calculatePercentile 25 [10, 20, 30] =
      100 * (([10, 20, 30] : List ℚ).countP (fun x => decide (x < 25)) : ℚ) / 3) ∧
    (([10, 20] : List ℚ) ≠ [] ∧ (∀ x ∈ ([10, 20] : List ℚ), x < 25) ∧
      calculatePercentile 25 [10, 20] = 100) := by
  refine ⟨(C4_percentile_spec 25 []).1 rfl,
    ⟨by simp, ?_⟩,
    ⟨by simp, ?_, (C4_percentile_spec 25 [10, 20]).2.2.1 (by simp) ?_⟩⟩
  · have := (C4_percentile_spec 25 [10, 20, 30]).2.1 (by simp)
    simpa using this
  all_goals
    intro x hx
    rcases List.mem_cons.1 hx with rfl | hx
    · norm_num
    · rcases List.mem_cons.1 hx with rfl | hx
      · norm_num
      · simp at hx

/-- The suffix of the last `n` elements (JS `arr.slice(-n)`). -/
def takeLast {α : Type} (n : ℕ) (l : List α) : List α := l.drop (l.length - n)

lemma length_takeLast {α : Type} (n : ℕ) (l : List α) :
    (takeLast n l).length = min n l.length := by
  simp only [takeLast, List.length_drop]
  omega

lemma takeLast_of_le {α : Type} {n : ℕ} {l : List α} (h : l.length ≤ n) :
    takeLast n l = l := by
  simp [takeLast, Nat.sub_eq_zero_of_le h]

lemma takeLast_append_takeLast {α : Type} (n : ℕ) (l r : List α) :
    takeLast n (takeLast n l ++ r) = takeLast n (l ++ r) := by
  simp only [takeLast, List.drop_append_eq_append_drop, List.length_drop,
    List.length_append, List.drop_drop]
  congr 1
  · congr 1
    omega
  · congr 1
    omega

/-- Pushing into a full window is exactly keeping the last `cap` values. -/
lemma pushWindow_eq_takeLast {cap : ℕ} {w : List ℚ} (v : ℚ)
    (h : w.length ≤ cap) : pushWindow cap w v = takeLast cap (w ++ [v]) := by
  unfold pushWindow
  by_cases hlt : cap < (w ++ [v]).length
  · rw [if_pos hlt]
    have hlen : (w ++ [v]).length = w.length + 1 := by simp
    have hcap : w.length = cap := by
      rw [hlen] at hlt
      omega
    simp [takeLast, hlen, hcap, List.drop_one]
  · rw [if_neg hlt, takeLast_of_le (by omega)]

lemma length_pushWindow_le {cap : ℕ} {w : List ℚ} (v : ℚ)
    (h : w.length ≤ cap) : (pushWindow cap w v).length ≤ cap := by
  unfold pushWindow
  by_cases hlt : cap < (w ++ [v]).length
  · rw [if_pos hlt]
    simp at hlt ⊢
    omega
  · rw [if_neg hlt]
    omega

lemma mem_setMarket {ms : List (String × List ℚ)} {k : String} {w : List ℚ}
    {q : String × List ℚ} (h : q ∈ setMarket ms k w) :
    q = (k, w) ∨ q ∈ ms := by
  induction ms with
  | nil =>
    simp [setMarket] at h
    exact Or.inl h
  | cons p rest ih =>
    obtain ⟨k', w'⟩ := p
    unfold setMarket at h
    by_cases hk : k' = k
    · rw [if_pos hk] at h
      rcases List.mem_cons.1 h with rfl | h
      · exact Or.inl rfl
      · exact Or.inr (List.mem_cons_of_mem _ h)
    · rw [if_neg hk] at h
      rcases List.mem_cons.1 h with rfl | h
      · exact Or.inr (List.mem_cons_self _ _)
      · rcases ih h with h | h
        · exact Or.inl h
        · exact Or.inr (List.mem_cons_of_mem _ h)

lemma getMarket_bound {ms : List (String × List ℚ)} {k : String} {b : ℕ}
    (h : ∀ p ∈ ms, p.2.length ≤ b) : (getMarket ms k).length ≤ b := by
  induction ms with
  | nil => simp [getMarket]
  | cons p rest ih =>
    obtain ⟨k', w'⟩ := p
    unfold getMarket
    by_cases hk : k' = k
    · rw [if_pos hk]
      exact h (k', w') (List.mem_cons_self _ _)
    · rw [if_neg hk]
      exact ih fun q hq => h q (List.mem_cons_of_mem _ hq)

/-- The windows never exceed their capacities: global 5000, each market 500. -/
def windowsBounded (s : DetectorState) : Prop :=
  s.globalTrades.length ≤ 5000 ∧ ∀ p ∈ s.marketTrades, p.2.length ≤ 500

lemma tail_append_singleton {α : Type} {g : List α} (v : α) (h : g ≠ []) :
    (g ++ [v]).tail = g.tail ++ [v] := by
  cases g with
  | nil => exact absurd rfl h
  | cons a t => rfl

/-- Global window of a run started below capacity: always the last 5000 pushed
values. -/
lemma runDetector_global (ts : List TradeInput) (s : DetectorState)
    (h : s.globalTrades.length ≤ 5000) :
    (runDetector s ts).globalTrades =
      takeLast 5000 (s.globalTrades ++ ts.map TradeInput.usdcSize) := by
  induction ts generalizing s with
  | nil =>
    simp only [runDetector, List.foldl_nil, List.map_nil, List.append_nil]
    exact (takeLast_of_le h).symm
  | cons t ts ih =>
    have hstep : runDetector s (t :: ts) = runDetector (updateState s t) ts := rfl
    have hglob : (updateState s t).globalTrades =
        takeLast 5000 (s.globalTrades ++ [t.usdcSize]) :=
      pushWindow_eq_takeLast t.usdcSize h
    have hlen : (updateState s t).globalTrades.length ≤ 5000 := by
      rw [hglob, length_takeLast]
      omega
    rw [hstep, ih _ hlen, hglob, takeLast_append_takeLast]
    congr 1
    rw [List.append_assoc]
    rfl

/-- C7: `addTrade`'s statistics update preserves the window capacities (5000
global, 500 per market), evicts the oldest entry FIFO when a window is at
capacity, and a run of N distinct trades from a fresh detector leaves the
global window holding the last `min N 5000` notional values in insertion
order. -/
theorem C7_window_bounds (s : DetectorState) (t : TradeInput)
    (ts : List TradeInput) :
    (windowsBounded s → windowsBounded (updateState s t)) ∧
    (s.globalTrades.length = 5000 →
      (updateState s t).globalTrades = s.globalTrades.tail ++ [t.usdcSize]) ∧
    ((getMarket s.marketTrades t.marketId).length = 500 →
      getMarket (updateState s t).marketTrades t.marketId =
        (getMarket s.marketTrades t.marketId).tail ++ [t.usdcSize]) ∧
    (runDetector initState ts).globalTrades =
      takeLast 5000 (ts.map TradeInput.usdcSize) ∧
    (runDetector initState ts).globalTrades.length = min ts.length 5000 := by
  have hget : ∀ (ms : List (String × List ℚ)) (k : String) (w : List ℚ),
      getMarket (setMarket ms k w) k = w := by
    intro ms k w
    induction ms with
    | nil => simp [setMarket, getMarket]
    | cons p rest ih =>
      obtain ⟨k', w'⟩ := p
      unfold setMarket
      by_cases hk : k' = k
      · rw [if_pos hk]
        simp [getMarket]
      · rw [if_neg hk]
        unfold getMarket
        rw [if_neg hk]
        exact ih
  refine ⟨?_, ?_, ?_, ?_, ?_⟩
  · rintro ⟨hg, hm⟩
    refine ⟨length_pushWindow_le _ hg, ?_⟩
    intro q hq
    rcases mem_setMarket hq with rfl | hq
    · exact length_pushWindow_le _ (getMarket_bound hm)
    · exact hm q hq
  · intro h5000
    show pushWindow 5000 s.globalTrades t.usdcSize = _
    unfold pushWindow
    rw [if_pos (by simp [h5000])]
    exact tail_append_singleton _ (by intro hnil; rw [hnil] at h5000; simp at h5000)
  · intro h500
    show getMarket (setMarket s.marketTrades t.marketId _) t.marketId = _
    rw [hget]
    unfold pushWindow
    rw [if_pos (by simp [h500])]
    exact tail_append_singleton _
      (by intro hnil; rw [hnil] at h500; simp at h500)
  · have := runDetector_global ts initState (by simp [initState])
    simpa [initState] using this
  · rw [runDetector_global ts initState (by simp [initState])]
    simp only [initState, List.nil_append, length_takeLast, List.length_map]
    omega

/-- Witness for C7: a full global window (5000 entries) and a full market
window (500 entries) both evict FIFO on the next trade. -/
theorem C7_window_bounds_witness :
    (windowsBounded ⟨List.replicate 5000 1, [("M", List.replicate 500 2)], 7⟩ ∧
      windowsBounded (updateState
        ⟨List.replicate 5000 1, [("M", List.replicate 500 2)], 7⟩
        ⟨1, 3, "M", 0⟩)) ∧
    (updateState ⟨List.replicate 5000 1, [("M", List.replicate 500 2)], 7⟩
        ⟨1, 3, "M", 0⟩).globalTrades =
      (List.replicate 5000 (1 : ℚ)).tail ++ [3] ∧
    getMarket (updateState
        ⟨List.replicate 5000 1, [("M", List.replicate 500 2)], 7⟩
        ⟨1, 3, "M", 0⟩).marketTrades "M" =
      (getMarket [("M", List.replicate 500 (2 : ℚ))] "M").tail ++ [3] ∧
    (runDetector initState [⟨1, 3, "M", 0⟩]).globalTrades =
      takeLast 5000 ([(⟨1, 3, "M", 0⟩ : TradeInput)].map TradeInput.usdcSize) := by
  have hb : windowsBounded
      ⟨List.replicate 5000 1, [("M", List.replicate 500 2)], 7⟩ := by
    refine ⟨?_, ?_⟩
    · show (List.replicate 5000 (1 : ℚ)).length ≤ 5000
      rw [List.length_replicate]
    · intro q hq
      rcases List.mem_cons.1 hq with rfl | hq
      · show (List.replicate 500 (2 : ℚ)).length ≤ 500
        rw [List.length_replicate]
      · exact absurd hq (List.not_mem_nil q)
  have hgm : getMarket [("M", List.replicate 500 (2 : ℚ))] "M" =
      List.replicate 500 (2 : ℚ) := by
    unfold getMarket
    rw [if_pos rfl]
  refine ⟨⟨hb, (C7_window_bounds _ ⟨1, 3, "M", 0⟩ []).1 hb⟩, ?_, ?_,
    (C7_window_bounds initState ⟨1, 3, "M", 0⟩ [⟨1, 3, "M", 0⟩]).2.2.2.1⟩
  · refine (C7_window_bounds _ ⟨1, 3, "M", 0⟩ []).2.1 ?_
    show (List.replicate 5000 (1 : ℚ)).length = 5000
    rw [List.length_replicate]
  · refine (C7_window_bounds _ ⟨1, 3, "M", 0⟩ []).2.2.1 ?_
    show (getMarket [("M", List.replicate 500 (2 : ℚ))] "M").length = 500
    rw [hgm, List.length_replicate]

lemma setMarket_keys (ms : List (String × List ℚ)) (k : String) (w : List ℚ) :
    (setMarket ms k w).map Prod.fst =
      if k ∈ ms.map Prod.fst then ms.map Prod.fst
      else ms.map Prod.fst ++ [k] := by
  induction ms with
  | nil => simp [setMarket]
  | cons p rest ih =>
    obtain ⟨k', w'⟩ := p
    unfold setMarket
    by_cases hk : k' = k
    · subst hk
      rw [if_pos rfl]
      simp
    · rw [if_neg hk]
      by_cases hmem : k ∈ rest.map Prod.fst
      · simp only [List.map_cons, ih, if_pos hmem]
        rw [if_pos (List.mem_cons_of_mem _ hmem)]
      · have : ¬k ∈ (k', w').fst :: rest.map Prod.fst := by
          intro h
          rcases List.mem_cons.1 h with h | h
          · exact hk h.symm
          · exact hmem h
        simp only [List.map_cons, ih, if_neg hmem]
        rw [if_neg this, List.cons_append]

lemma total_runDetector (ts : List TradeInput) (s : DetectorState) :
    (runDetector s ts).totalTradesAnalyzed = s.totalTradesAnalyzed + ts.length := by
  induction ts generalizing s with
  | nil => simp [runDetector]
  | cons t ts ih =>
    have hstep : runDetector s (t :: ts) = runDetector (updateState s t) ts := rfl
    rw [hstep, ih]
    simp [updateState]
    omega

lemma keys_runDetector (ts : List TradeInput) (s : DetectorState)
    (h : (s.marketTrades.map Prod.fst).Nodup) :
    ((runDetector s ts).marketTrades.map Prod.fst).Nodup ∧
    ((runDetector s ts).marketTrades.map Prod.fst).toFinset =
      (s.marketTrades.map Prod.fst).toFinset ∪
        (ts.map TradeInput.marketId).toFinset := by
  induction ts generalizing s with
  | nil =>
    refine ⟨h, ?_⟩
    simp [runDetector]
  | cons t ts ih =>
    have hstep : runDetector s (t :: ts) = runDetector (updateState s t) ts := rfl
    have hkeys : (updateState s t).marketTrades.map Prod.fst =
        if t.marketId ∈ s.marketTrades.map Prod.fst then
          s.marketTrades.map Prod.fst
        else s.marketTrades.map Prod.fst ++ [t.marketId] :=
      setMarket_keys _ _ _
    by_cases hmem : t.marketId ∈ s.marketTrades.map Prod.fst
    · rw [if_pos hmem] at hkeys
      have := ih (updateState s t) (by rw [hkeys]; exact h)
      rw [hstep]
      refine ⟨this.1, ?_⟩
      rw [this.2, hkeys]
      ext x
      simp only [Finset.mem_union, List.mem_toFinset, List.map_cons,
        List.mem_cons]
      constructor
      · rintro (hx | hx)
        · exact Or.inl hx
        · exact Or.inr (Or.inr hx)
      · rintro (hx | rfl | hx)
        · exact Or.inl hx
        · exact Or.inl hmem
        · exact Or.inr hx
    · rw [if_neg hmem] at hkeys
      have hnd : ((updateState s t).marketTrades.map Prod.fst).Nodup := by
        rw [hkeys]
        simp [List.nodup_append, h, hmem]
      have := ih (updateState s t) hnd
      rw [hstep]
      refine ⟨this.1, ?_⟩
      rw [this.2, hkeys]
      ext x
      simp only [Finset.mem_union, List.mem_toFinset, List.mem_append,
        List.map_cons, List.mem_cons, List.mem_singleton]
      tauto

/-- C10: after a run of N trades from a fresh (or reset) detector, `getStats`
reports `globalTradeCount = N` (the unbounded counter), `marketCount` equal to
the number of distinct market ids observed, and `avgTradeSize` equal to the
mean of the current global window, or 0 when that window is empty. -/
theorem C10_getStats_spec (ts : List TradeInput) (s : DetectorState) :
    (getStats (runDetector initState ts)).globalTradeCount = ts.length ∧
    (getStats (runDetector (reset s) ts)).globalTradeCount = ts.length ∧
    (getStats (runDetector initState ts)).marketCount =
      ((ts.map TradeInput.marketId).dedup).length ∧
    ((runDetector initState ts).globalTrades = [] →
      (getStats (runDetector initState ts)).avgTradeSize = 0) ∧
    ((runDetector initState ts).globalTrades ≠ [] →
      (getStats (runDetector initState ts)).avgTradeSize =
        mean (runDetector initState ts).globalTrades) := by
  have hcount : (getStats (runDetector initState ts)).globalTradeCount =
      ts.length := by
    show (runDetector initState ts).totalTradesAnalyzed = ts.length
    rw [total_runDetector]
    show 0 + ts.length = ts.length
    omega
  have hkeys := keys_runDetector ts initState (by simp [initState])
  refine ⟨hcount, hcount, ?_, ?_, ?_⟩
  · show (runDetector initState ts).marketTrades.length = _
    have hlen : (runDetector initState ts).marketTrades.length =
        ((runDetector initState ts).marketTrades.map Prod.fst).length := by
      rw [List.length_map]
    rw [hlen, ← List.Nodup.dedup hkeys.1, ← List.card_toFinset, hkeys.2,
      show (List.map Prod.fst initState.marketTrades).toFinset = ∅ from rfl,
      Finset.empty_union, List.card_toFinset]
  · intro h
    show (if 0 < (runDetector initState ts).globalTrades.length then _ else _) = _
    rw [if_neg (by rw [h]; simp)]
  · intro h
    show (if 0 < (runDetector initState ts).globalTrades.length then _ else _) = _
    rw [if_pos (List.length_pos.2 h)]

/-- Witness for C10: a two-trade run on a single market, and the empty run for
the empty-window case of `avgTradeSize`. -/
theorem C10_getStats_spec_witness :
    (getStats (runDetector initState
        [⟨1, 10, "A", 0⟩, ⟨1, 20, "A", 0⟩])).globalTradeCount = 2 ∧
    (getStats (runDetector initState
        [⟨1, 10, "A", 0⟩, ⟨1, 20, "A", 0⟩])).marketCount =
      ((([⟨1, 10, "A", 0⟩, ⟨1, 20, "A", 0⟩] : List TradeInput).map
        TradeInput.marketId).dedup).length ∧
    ((runDetector initState
        [(⟨1, 10, "A", 0⟩ : TradeInput), ⟨1, 20, "A", 0⟩]).globalTrades ≠ [] ∧
      (getStats (runDetector initState
          [⟨1, 10, "A", 0⟩, ⟨1, 20, "A", 0⟩])).avgTradeSize =
        mean (runDetector initState
          [⟨1, 10, "A", 0⟩, ⟨1, 20, "A", 0⟩]).globalTrades) ∧
    ((runDetector initState ([] : List TradeInput)).globalTrades = [] ∧
      (getStats (runDetector initState ([] : List TradeInput))).avgTradeSize = 0) := by
  have hne : (runDetector initState
      [(⟨1, 10, "A", 0⟩ : TradeInput), ⟨1, 20, "A", 0⟩]).globalTrades ≠ [] := by
    intro h
    exact absurd h (by decide)
  refine ⟨(C10_getStats_spec [⟨1, 10, "A", 0⟩, ⟨1, 20, "A", 0⟩] initState).1,
    (C10_getStats_spec [⟨1, 10, "A", 0⟩, ⟨1, 20, "A", 0⟩] initState).2.2.1,
    ⟨hne, (C10_getStats_spec [⟨1, 10, "A", 0⟩, ⟨1, 20, "A", 0⟩] initState).2.2.2.2
      hne⟩,
    ⟨rfl, (C10_getStats_spec [] initState).2.2.2.1 rfl⟩⟩

lemma mem_pushWindow_self {cap : ℕ} (hcap : 0 < cap) (w : List ℚ) (v : ℚ) :
    v ∈ pushWindow cap w v := by
  unfold pushWindow
  by_cases hlt : cap < (w ++ [v]).length
  · rw [if_pos hlt]
    cases w with
    | nil => simp at hlt; omega
    | cons a t =>
      show v ∈ (t ++ [v])
      exact List.mem_append_right t (List.mem_singleton.2 rfl)
  · rw [if_neg hlt]
    exact List.mem_append_right w (List.mem_singleton.2 rfl)

lemma firstIdxGe_lt_length {v : ℚ} {l : List ℚ} (h : ∃ x ∈ l, v ≤ x) :
    ∃ i, firstIdxGe v l = some i ∧ i < l.length := by
  induction l with
  | nil => simp at h
  | cons a t ih =>
    by_cases hva : v ≤ a
    · exact ⟨0, by rw [firstIdxGe_cons, if_pos hva], by simp⟩
    · obtain ⟨x, hx, hvx⟩ := h
      rcases List.mem_cons.1 hx with rfl | hx
      · exact absurd hvx hva
      · obtain ⟨i, hi, hlen⟩ := ih ⟨x, hx, hvx⟩
        refine ⟨i + 1, ?_, by simp; omega⟩
        rw [firstIdxGe_cons, if_neg hva, hi]
        rfl

/-- A value present in the window never sits at the 100th percentile. -/
lemma percentile_lt_100_of_mem {v : ℚ} {ds : List ℚ} (h : v ∈ ds) :
    calculatePercentile v ds < 100 := by
  have hne : ds ≠ [] := List.ne_nil_of_mem h
  have hlen0 : ds.length ≠ 0 := by simpa using hne
  have hmem : v ∈ ds.insertionSort (· ≤ ·) :=
    (List.perm_insertionSort _ ds).mem_iff.2 h
  obtain ⟨i, hi, hilen⟩ := firstIdxGe_lt_length ⟨v, hmem, le_refl v⟩
  unfold calculatePercentile
  rw [if_neg hlen0]
  simp only [hi]
  have hlen : (ds.insertionSort (· ≤ ·)).length = ds.length :=
    (List.perm_insertionSort _ ds).length_eq
  rw [hlen] at hilen ⊢
  have hq : (0 : ℚ) < ds.length := by
    exact_mod_cast Nat.pos_of_ne_zero hlen0
  rw [div_mul_eq_mul_div, div_lt_iff₀ hq]
  have : (i : ℚ) < ds.length := by exact_mod_cast hilen
  linarith

/-- C9 amended: whenever the combined z-score of a 3000-notional trade is 0.2,
the trade is not an anomaly and its suspicion score stays below 32.4 (the
z-score contributes 2.4, the percentile contribution is strictly below its
30-point cap, and the size bonus is 0). -/
theorem C9_low_score_amended (s : DetectorState) (t : TradeInput)
    (hu : t.usdcSize = 3000) (hz : (addTrade s t).2.zScore = 0.2) :
    ¬(addTrade s t).2.isAnomaly ∧
      (addTrade s t).2.suspicionScore < 32.4 := by
  constructor
  · show ¬((addTrade s t).2.zScore > 1.5 ∨ t.usdcSize > 5000)
    rintro (h | h)
    · rw [hz] at h
      norm_num at h
    · rw [hu] at h
      norm_num at h
  · have hscore : (addTrade s t).2.suspicionScore =
        calculateSuspicionScore (addTrade s t).2.zScore
          (((addTrade s t).2.percentile : ℚ) : ℝ) t.usdcSize := rfl
    have hp : (addTrade s t).2.percentile =
        calculatePercentile t.usdcSize (updateState s t).globalTrades := rfl
    have hmem : t.usdcSize ∈ (updateState s t).globalTrades :=
      mem_pushWindow_self (by norm_num) _ _
    have hp100 : (addTrade s t).2.percentile < 100 := by
      rw [hp]
      exact percentile_lt_100_of_mem hmem
    have hpr : (((addTrade s t).2.percentile : ℚ) : ℝ) < 100 := by
      exact_mod_cast hp100
    rw [hscore, hz, hu]
    unfold calculateSuspicionScore
    have hbonus : sizeBonus 3000 = 0 := by norm_num [sizeBonus]
    rw [hbonus]
    have h1 : min (40 : ℝ) (|(0.2 : ℝ)| * 12) = 2.4 := by
      rw [abs_of_pos (by norm_num)]
      norm_num
    have h2 : min (30 : ℝ)
        (((((addTrade s t).2.percentile : ℚ) : ℝ) - 50) * 0.6) < 30 := by
      refine lt_of_le_of_lt (min_le_right _ _) ?_
      linarith
    rw [h1]
    push_cast
    have hmax : max (0 : ℝ)
        (0 + 2.4 + min (30 : ℝ)
          (((((addTrade s t).2.percentile : ℚ) : ℝ) - 50) * 0.6) + 0) < 32.4 :=
      max_lt (by norm_num) (by linarith)
    calc min (100 : ℝ) _ ≤ _ := min_le_right _ _
      _ < 32.4 := hmax

/-- Nine prior trades on one market whose values put the tenth trade (3000) at
combined z-score exactly 0.2 with percentile 80. -/
def c9Prior : List TradeInput :=
  [⟨1, 3013, "M", 0⟩, ⟨1, 2994, "M", 0⟩, ⟨1, 2995, "M", 0⟩, ⟨1, 2996, "M", 0⟩,
   ⟨1, 2998, "M", 0⟩, ⟨1, 2998, "M", 0⟩, ⟨1, 2998, "M", 0⟩, ⟨1, 2999, "M", 0⟩,
   ⟨1, 2999, "M", 0⟩]

/-- The scenario trade of the spec: notional 3000. -/
def c9Final : TradeInput := ⟨1, 3000, "M", 0⟩

/-- Detector state reached after the nine prior trades. -/
def c9State : DetectorState := runDetector initState c9Prior

/-- Both windows when the 3000 trade is classified: mean 2999, population
variance 25, standard deviation 5, so the z-score is `1/5 = 0.2` and eight of
the ten entries lie below 3000 (percentile 80). -/
def c9Window : List ℚ :=
  [3013, 2994, 2995, 2996, 2998, 2998, 2998, 2999, 2999, 3000]

lemma c9_global : (updateState c9State c9Final).globalTrades = c9Window := by
  rfl

lemma c9_market :
    getMarket (updateState c9State c9Final).marketTrades "M" = c9Window := by
  rfl

lemma c9_mean : mean c9Window = 2999 := by
  unfold mean c9Window
  norm_num

lemma c9_z : calculateZScore 3000 c9Window = 0.2 := by
  have hvar : variance c9Window = 25 := by
    unfold variance
    rw [c9_mean]
    unfold c9Window
    norm_num
  have hsd : stddev c9Window = 5 := by
    unfold stddev
    rw [hvar, show ((25 : ℚ) : ℝ) = 5 ^ 2 by norm_num]
    exact Real.sqrt_sq (by norm_num)
  have hlen : ¬(c9Window.length < 10) := by
    unfold c9Window
    simp
  unfold calculateZScore
  rw [if_neg hlen, if_neg (by rw [hsd]; norm_num), hsd, c9_mean]
  norm_num

lemma c9_zscore : (addTrade c9State c9Final).2.zScore = 0.2 := by
  have h : (addTrade c9State c9Final).2.zScore =
      calculateZScore c9Final.usdcSize (updateState c9State c9Final).globalTrades
        * 0.4 +
      calculateZScore c9Final.usdcSize
        (getMarket (updateState c9State c9Final).marketTrades c9Final.marketId)
        * 0.6 := rfl
  have hu : c9Final.usdcSize = (3000 : ℚ) := rfl
  have hm : c9Final.marketId = "M" := rfl
  rw [h, hu, hm, c9_global, c9_market, c9_z]
  norm_num

lemma c9_percentile : calculatePercentile 3000 c9Window = 80 := by
  rw [percentile_eq_countP 3000 c9Window (by unfold c9Window; simp)]
  have hcount : c9Window.countP (fun x => decide (x < 3000)) = 8 := by decide
  have hlen : c9Window.length = 10 := by unfold c9Window; simp
  rw [hcount, hlen]
  norm_num

lemma c9_score : (addTrade c9State c9Final).2.suspicionScore = 20.4 := by
  have hscore : (addTrade c9State c9Final).2.suspicionScore =
      calculateSuspicionScore (addTrade c9State c9Final).2.zScore
        (((addTrade c9State c9Final).2.percentile : ℚ) : ℝ)
        c9Final.usdcSize := rfl
  have hp : (addTrade c9State c9Final).2.percentile =
      calculatePercentile c9Final.usdcSize
        (updateState c9State c9Final).globalTrades := rfl
  have hu : c9Final.usdcSize = (3000 : ℚ) := rfl
  rw [hscore, c9_zscore, hp, hu, c9_global, c9_percentile]
  unfold calculateSuspicionScore
  have hbonus : sizeBonus 3000 = 0 := by norm_num [sizeBonus]
  rw [hbonus]
  have h1 : min (40 : ℝ) (|(0.2 : ℝ)| * 12) = 2.4 := by
    rw [abs_of_pos (by norm_num)]
    norm_num
  have h2 : min (30 : ℝ) ((((80 : ℚ) : ℝ) - 50) * 0.6) = 18 := by
    push_cast
    norm_num
  rw [h1, h2]
  push_cast
  norm_num

/-- The spec scenario as a universal statement over reachable detector states:
a 3000-notional trade whose combined z-score evaluates to 0.2 is claimed to be
no anomaly and to score strictly below 20. -/
def lowScoreClaim : Prop :=
  ∀ (ts : List TradeInput) (t : TradeInput),
    t.usdcSize = 3000 →
    (addTrade (runDetector initState ts) t).2.zScore = 0.2 →
    ¬(addTrade (runDetector initState ts) t).2.isAnomaly ∧
      (addTrade (runDetector initState ts) t).2.suspicionScore < 20

/-- C9 counterexample: after the nine-trade prefix `c9Prior`, the 3000-notional
trade has combined z-score exactly 0.2 yet suspicion score 20.4, refuting the
claimed bound of 20. -/
theorem C9_low_score_counterexample : ¬lowScoreClaim := by
  intro h
  have hc := (h c9Prior c9Final rfl c9_zscore).2
  rw [show runDetector initState c9Prior = c9State from rfl] at hc
  rw [c9_score] at hc
  norm_num at hc

/-- Witness for the amended C9 at the same concrete scenario. -/
theorem C9_low_score_amended_witness :
    c9Final.usdcSize = 3000 ∧ (addTrade c9State c9Final).2.zScore = 0.2 ∧
    (¬(addTrade c9State c9Final).2.isAnomaly ∧
      (addTrade c9State c9Final).2.suspicionScore < 32.4) :=
  ⟨rfl, c9_zscore, C9_low_score_amended c9State c9Final rfl c9_zscore⟩

/-- A trade record returned by the poll endpoint (`polymarketClient.getTrades`
in index.ts), with the fields the poll loop reads. -/
structure PollTrade where
  transactionHash : String
  conditionId : String
  asset : String
  side : String
  outcome : Option String
  price : ℚ
  size : ℚ
  usdcSize : Option ℚ
  title : Option String
  proxyWallet : Option String
  timestamp : ℤ
deriving DecidableEq, Repr

/-- A trade event from the push (WebSocket) feed (`TradeData` in index.ts):
note it carries no transaction identifier. -/
structure TradeData where
  assetId : String
  marketId : String
  price : ℚ
  size : ℚ
  side : String
  timestamp : ℤ
deriving DecidableEq, Repr

/-- JS `a || d` on a possibly-missing number: `0` is falsy. -/
def jsOrQ (a : Option ℚ) (d : ℚ) : ℚ :=
  match a with
  | none => d
  | some x => if x = 0 then d else x

/-- JS `a || d` on a possibly-missing string: the empty string is falsy. -/
def jsOrS (a : Option String) (d : String) : String :=
  match a with
  | none => d
  | some s => if s = "" then d else s

/-- The `addTrade` argument built by the poll loop (index.ts lines 204-212):
`usdcSize: trade.usdcSize || trade.size * trade.price`, market id from
`conditionId`. -/
def pollInput (tr : PollTrade) : TradeInput :=
  ⟨tr.size, jsOrQ tr.usdcSize (tr.size * tr.price), tr.conditionId, tr.timestamp⟩

/-- The `addTrade` argument built by the push handler (index.ts lines 81-89):
`usdcSize = size * price`. -/
def pushInput (td : TradeData) : TradeInput :=
  ⟨td.size, td.size * td.price, td.marketId, td.timestamp⟩

/-- The whale record emitted to the sinks (`io.emit('whale', ...)`). -/
structure EmittedTrade where
  transactionHash : String
  marketId : String
  marketTitle : String
  walletAddress : String
  usdcSize : ℚ
  anomaly : AnomalyResult

/-- Shared orchestrator state: the `seenTransactions` set (insertion order) and
the detector. -/
structure PipelineState where
  seen : List String
  detector : DetectorState

/-- Server start-up state: empty seen-set, fresh detector. -/
def pipeInit : PipelineState := ⟨[], initState⟩

/-- The seen-set trim (index.ts lines 189-193): once the set exceeds 10000
entries it is reduced to the most recent 5000 (`arr.slice(-5000)`). -/
def trimSeen (s : List String) : List String :=
  if 10000 < s.length then takeLast 5000 s else s

/-- State effect of one iteration of the poll loop body (index.ts lines
183-212): skip a seen transaction hash entirely, otherwise record the hash
(with trim) and run the statistics update of `addTrade`. -/
def pollStep (st : PipelineState) (tr : PollTrade) : PipelineState :=
  if tr.transactionHash ∈ st.seen then st
  else
    { seen := trimSeen (st.seen ++ [tr.transactionHash])
      detector := updateState st.detector (pollInput tr) }

open Classical in
/-- Emission effect of the same poll-loop iteration (index.ts lines 214-243):
a fresh trade classified as an anomaly is emitted with
`marketTitle: trade.title || 'Unknown Market'` and
`walletAddress: trade.proxyWallet || 'unknown'`. -/
noncomputable def pollEmits (st : PipelineState) (tr : PollTrade) :
    List EmittedTrade :=
  if tr.transactionHash ∈ st.seen then []
  else if (classify (updateState st.detector (pollInput tr))
      (pollInput tr)).isAnomaly then
    [{ transactionHash := tr.transactionHash
       marketId := tr.conditionId
       marketTitle := jsOrS tr.title "Unknown Market"
       walletAddress := jsOrS tr.proxyWallet "unknown"
       usdcSize := jsOrQ tr.usdcSize (tr.size * tr.price)
       anomaly := classify (updateState st.detector (pollInput tr))
         (pollInput tr) }]
  else []

/-- State effect of the push-feed handler (index.ts lines 79-96): the incoming
event is fed to `addTrade` unconditionally — the seen-set is not consulted. -/
def pushStep (st : PipelineState) (td : TradeData) : PipelineState :=
  ⟨st.seen, updateState st.detector (pushInput td)⟩

/-- Running the poll loop over a page of fetched trades. -/
def runPoll (st : PipelineState) (trs : List PollTrade) : PipelineState :=
  trs.foldl pollStep st

/-- C8 as the spec states it: a polled trade without a resolvable market title
is dropped — nothing is emitted for it. -/
def pollTitleClaim : Prop :=
  ∀ (st : PipelineState) (tr : PollTrade), tr.title = none → pollEmits st tr = []

/-- A polled trade with no title whose notional value (6000) makes it an
anomaly even on cold windows. -/
def c8Trade : PollTrade :=
  { transactionHash := "t0"
    conditionId := "m0"
    asset := "a0"
    side := "BUY"
    outcome := none
    price := 1
    size := 6000
    usdcSize := some 6000
    title := none
    proxyWallet := none
    timestamp := 0 }

lemma c8_usdc : (pollInput c8Trade).usdcSize = 6000 := by
  show jsOrQ (some 6000) (6000 * 1) = 6000
  unfold jsOrQ
  norm_num

lemma c8_anomaly : (classify (updateState pipeInit.detector (pollInput c8Trade))
    (pollInput c8Trade)).isAnomaly := by
  show _ ∨ (pollInput c8Trade).usdcSize > 5000
  refine Or.inr ?_
  rw [c8_usdc]
  norm_num

/-- C8 counterexample: on a fresh pipeline the title-less trade `c8Trade` is
emitted, with the placeholder title `"Unknown Market"` — it is not dropped. -/
theorem C8_drop_counterexample :
    ¬pollTitleClaim ∧
    (pollEmits pipeInit c8Trade).map EmittedTrade.marketTitle =
      ["Unknown Market"] := by
  have hseen : ¬c8Trade.transactionHash ∈ pipeInit.seen := by
    show ¬"t0" ∈ ([] : List String)
    simp
  have hemit : (pollEmits pipeInit c8Trade).map EmittedTrade.marketTitle =
      ["Unknown Market"] := by
    unfold pollEmits
    rw [if_neg hseen, if_pos c8_anomaly]
    rfl
  refine ⟨?_, hemit⟩
  intro h
  rw [h pipeInit c8Trade rfl] at hemit
  simp at hemit

/-- C8 amended: a polled trade without a resolvable title is not dropped —
every record emitted for it carries the placeholder title `"Unknown Market"`,
and a fresh anomalous one is in fact emitted. -/
theorem C8_unknown_title_amended (st : PipelineState) (tr : PollTrade)
    (h : tr.title = none) :
    (∀ e ∈ pollEmits st tr, e.marketTitle = "Unknown Market") ∧
    (tr.transactionHash ∉ st.seen →
      (classify (updateState st.detector (pollInput tr))
        (pollInput tr)).isAnomaly →
      pollEmits st tr ≠ []) := by
  unfold pollEmits
  by_cases hseen : tr.transactionHash ∈ st.seen
  · rw [if_pos hseen]
    exact ⟨by simp, fun hns _ => absurd hseen hns⟩
  · rw [if_neg hseen]
    by_cases hanom : (classify (updateState st.detector (pollInput tr))
        (pollInput tr)).isAnomaly
    · rw [if_pos hanom]
      refine ⟨?_, fun _ _ => by simp⟩
      intro e he
      rw [List.mem_singleton] at he
      subst he
      show jsOrS tr.title "Unknown Market" = "Unknown Market"
      rw [h]
      rfl
    · rw [if_neg hanom]
      exact ⟨by simp, fun _ ha => absurd ha hanom⟩

/-- Witness for the amended C8 at the concrete title-less anomalous trade. -/
theorem C8_unknown_title_amended_witness :
    c8Trade.title = none ∧
    (∀ e ∈ pollEmits pipeInit c8Trade, e.marketTitle = "Unknown Market") ∧
    pollEmits pipeInit c8Trade ≠ [] := by
  have hseen : c8Trade.transactionHash ∉ pipeInit.seen := by
    show ¬"t0" ∈ ([] : List String)
    simp
  exact ⟨rfl, (C8_unknown_title_amended pipeInit c8Trade rfl).1,
    (C8_unknown_title_amended pipeInit c8Trade rfl).2 hseen c8_anomaly⟩

/-- A family of pairwise distinct transaction hashes. -/
def hashN (i : ℕ) : String := String.mk (List.replicate i 'a')

lemma hashN_inj {i j : ℕ} (h : hashN i = hashN j) : i = j := by
  have hd : List.replicate i 'a' = List.replicate j 'a' := congrArg String.data h
  have := congrArg List.length hd
  simpa using this

/-- A polled trade whose transaction hash is `hashN i`. -/
def dupTrade (i : ℕ) : PollTrade :=
  { transactionHash := hashN i
    conditionId := "m"
    asset := "a"
    side := "BUY"
    outcome := none
    price := 1
    size := 1
    usdcSize := some 1
    title := some "T"
    proxyWallet := none
    timestamp := 0 }

lemma mem_takeLast_append_singleton {α : Type} (n : ℕ) (hn : 0 < n)
    (l : List α) (x : α) : x ∈ takeLast n (l ++ [x]) := by
  unfold takeLast
  rw [List.drop_append_eq_append_drop]
  refine List.mem_append_right _ ?_
  have h0 : (l ++ [x]).length - n - l.length = 0 := by
    simp only [List.length_append, List.length_singleton]
    omega
  rw [h0]
  exact List.mem_singleton.2 rfl

/-- C2 as the spec states it: for any two poll submissions carrying the same
transaction identifier, processing the later one leaves the detector
untouched. -/
def pollDedupClaim : Prop :=
  ∀ (trs : List PollTrade) (j : ℕ) (hj : j < trs.length) (i : ℕ) (hi : i < j),
    (trs.get ⟨i, Nat.lt_trans hi hj⟩).transactionHash =
      (trs.get ⟨j, hj⟩).transactionHash →
    (runPoll pipeInit (trs.take (j + 1))).detector =
      (runPoll pipeInit (trs.take j)).detector

lemma runPoll_snoc (st : PipelineState) (xs : List PollTrade) (x : PollTrade) :
    runPoll st (xs ++ [x]) = pollStep (runPoll st xs) x := by
  unfold runPoll
  rw [List.foldl_append]
  rfl

lemma pollStep_seen_fresh {st : PipelineState} {tr : PollTrade}
    (h : tr.transactionHash ∉ st.seen) :
    (pollStep st tr).seen = trimSeen (st.seen ++ [tr.transactionHash]) := by
  unfold pollStep
  rw [if_neg h]

lemma pollStep_detector_fresh {st : PipelineState} {tr : PollTrade}
    (h : tr.transactionHash ∉ st.seen) :
    (pollStep st tr).detector = updateState st.detector (pollInput tr) := by
  unfold pollStep
  rw [if_neg h]

lemma updateState_total (s : DetectorState) (t : TradeInput) :
    (updateState s t).totalTradesAnalyzed = s.totalTradesAnalyzed + 1 := rfl

lemma dupTrade_hash (i : ℕ) : (dupTrade i).transactionHash = hashN i := rfl

lemma dup_prefix (k : ℕ) (hk : k ≤ 10000) :
    (runPoll pipeInit ((List.range k).map dupTrade)).seen =
      (List.range k).map hashN ∧
    (runPoll pipeInit
      ((List.range k).map dupTrade)).detector.totalTradesAnalyzed = k := by
  induction k with
  | zero => exact ⟨rfl, rfl⟩
  | succ k ih =>
    obtain ⟨hseen, htot⟩ := ih (by omega)
    have hr : List.range (k + 1) = List.range k ++ [k] := by
      simpa using List.range_succ k
    have hfresh : (dupTrade k).transactionHash ∉
        (runPoll pipeInit ((List.range k).map dupTrade)).seen := by
      rw [hseen]
      intro hmem
      obtain ⟨i, hi, heq⟩ := List.mem_map.1 hmem
      have hik : i = k := hashN_inj heq
      have := List.mem_range.1 hi
      omega
    have hsplit : (List.range (k + 1)).map dupTrade =
        (List.range k).map dupTrade ++ [dupTrade k] := by
      rw [hr, List.map_append]
      rfl
    have htrim : trimSeen ((List.range k).map hashN ++ [hashN k]) =
        (List.range (k + 1)).map hashN := by
      unfold trimSeen
      rw [if_neg (by
        rw [List.length_append, List.length_map, List.length_range,
          List.length_singleton]
        omega)]
      rw [hr, List.map_append]
      rfl
    constructor
    · rw [hsplit, runPoll_snoc, pollStep_seen_fresh hfresh, hseen,
        dupTrade_hash, htrim]
    · rw [hsplit, runPoll_snoc, pollStep_detector_fresh hfresh,
        updateState_total, htot]

set_option maxRecDepth 4000 in
lemma dup_full :
    (runPoll pipeInit ((List.range 10001).map dupTrade)).seen =
      takeLast 5000 ((List.range 10001).map hashN) ∧
    (runPoll pipeInit
      ((List.range 10001).map dupTrade)).detector.totalTradesAnalyzed = 10001 := by
  obtain ⟨hseen, htot⟩ := dup_prefix 10000 (le_refl _)
  have hr : List.range 10001 = List.range 10000 ++ [10000] := by
    simpa using List.range_succ 10000
  have hfresh : (dupTrade 10000).transactionHash ∉
      (runPoll pipeInit ((List.range 10000).map dupTrade)).seen := by
    rw [hseen]
    intro hmem
    obtain ⟨i, hi, heq⟩ := List.mem_map.1 hmem
    have hik : i = 10000 := hashN_inj heq
    have := List.mem_range.1 hi
    omega
  have hsplit : (List.range 10001).map dupTrade =
      (List.range 10000).map dupTrade ++ [dupTrade 10000] := by
    rw [hr, List.map_append]
    rfl
  have htrim : trimSeen ((List.range 10000).map hashN ++ [hashN 10000]) =
      takeLast 5000 ((List.range 10001).map hashN) := by
    unfold trimSeen
    rw [if_pos (by
      rw [List.length_append, List.length_map, List.length_range,
        List.length_singleton]
      omega)]
    rw [hr, List.map_append]
    rfl
  constructor
  · rw [hsplit, runPoll_snoc, pollStep_seen_fresh hfresh, hseen,
      dupTrade_hash, htrim]
  · rw [hsplit, runPoll_snoc, pollStep_detector_fresh hfresh,
      updateState_total, htot]

lemma hash0_not_in_trimmed :
    hashN 0 ∉ takeLast 5000 ((List.range 10001).map hashN) := by
  intro hmem
  have hL : ((List.range 10001).map hashN).length = 10001 := by
    rw [List.length_map, List.length_range]
  have hdrop : takeLast 5000 ((List.range 10001).map hashN) =
      ((List.range 10001).map hashN).drop 5001 := by
    unfold takeLast
    rw [hL]
  rw [hdrop] at hmem
  obtain ⟨i, hi, heq⟩ := List.mem_iff_getElem.1 hmem
  have hlt : 5001 + i < ((List.range 10001).map hashN).length := by
    rw [List.length_drop, hL] at hi
    rw [hL]
    omega
  rw [List.getElem_drop] at heq
  have hrange : 5001 + i < 10001 := by rw [hL] at hlt; omega
  rw [List.getElem_map, List.getElem_range] at heq
  exact absurd (hashN_inj heq) (by omega)

/-- C2 counterexample: after 10001 distinct transactions the seen-set is
trimmed to the last 5000 hashes, so resubmitting the very first transaction
hash is processed again — the detector counts 10002 updates instead of the
10001 the claim demands. -/
theorem C2_dedup_counterexample : ¬pollDedupClaim := by
  intro hclaim
  have hplen : ((List.range 10001).map dupTrade).length = 10001 := by
    rw [List.length_map, List.length_range]
  have hlen : ((List.range 10001).map dupTrade ++ [dupTrade 0]).length = 10002 := by
    rw [List.length_append, hplen]
    rfl
  have hj : 10001 < ((List.range 10001).map dupTrade ++ [dupTrade 0]).length := by
    rw [hlen]
    omega
  have hget0 : (((List.range 10001).map dupTrade ++ [dupTrade 0]).get
      ⟨0, Nat.lt_trans (by omega) hj⟩) = dupTrade 0 := by
    have h0 : 0 < ((List.range 10001).map dupTrade).length := by
      rw [hplen]
      omega
    rw [List.get_eq_getElem, List.getElem_append_left h0, List.getElem_map,
      List.getElem_range]
  have hget1 : (((List.range 10001).map dupTrade ++ [dupTrade 0]).get
      ⟨10001, hj⟩) = dupTrade 0 := by
    rw [List.get_eq_getElem, List.getElem_append_right hplen.le]
    simp only [hplen, Nat.sub_self, List.getElem_cons_zero]
  have heq := hclaim ((List.range 10001).map dupTrade ++ [dupTrade 0]) 10001 hj 0
    (by omega) (by rw [hget0, hget1])
  have htake1 : ((List.range 10001).map dupTrade ++ [dupTrade 0]).take 10001 =
      (List.range 10001).map dupTrade := by
    have h := List.take_left ((List.range 10001).map dupTrade) [dupTrade 0]
    rw [hplen] at h
    exact h
  have htake2 : ((List.range 10001).map dupTrade ++ [dupTrade 0]).take
      (10001 + 1) = (List.range 10001).map dupTrade ++ [dupTrade 0] :=
    List.take_of_length_le (by rw [hlen])
  rw [htake1, htake2] at heq
  obtain ⟨hseen, htot⟩ := dup_full
  have hfresh : (dupTrade 0).transactionHash ∉
      (runPoll pipeInit ((List.range 10001).map dupTrade)).seen := by
    rw [hseen]
    exact hash0_not_in_trimmed
  have hstep : runPoll pipeInit ((List.range 10001).map dupTrade ++ [dupTrade 0]) =
      pollStep (runPoll pipeInit ((List.range 10001).map dupTrade))
        (dupTrade 0) :=
    runPoll_snoc pipeInit ((List.range 10001).map dupTrade) (dupTrade 0)
  have hdet : (runPoll pipeInit ((List.range 10001).map dupTrade ++
      [dupTrade 0])).detector.totalTradesAnalyzed = 10002 := by
    rw [hstep, pollStep_detector_fresh hfresh, updateState_total, htot]
  have hcontr := congrArg DetectorState.totalTradesAnalyzed heq
  rw [hdet, htot] at hcontr
  exact absurd hcontr (by omega)

/-- C2 amended: a polling-feed submission whose transaction hash is still in
the seen-set is a complete no-op (no statistics update, no emission); a
processed submission always leaves its hash in the seen-set; and the push feed
performs no deduplication at all — it always updates the statistics. -/
theorem C2_dedup_amended (st : PipelineState) (tr : PollTrade) (td : TradeData) :
    (tr.transactionHash ∈ st.seen →
      pollStep st tr = st ∧ pollEmits st tr = []) ∧
    tr.transactionHash ∈ (pollStep st tr).seen ∧
    ((pushStep st td).seen = st.seen ∧
      (pushStep st td).detector = updateState st.detector (pushInput td)) := by
  refine ⟨fun h => ⟨?_, ?_⟩, ?_, rfl, rfl⟩
  · unfold pollStep
    rw [if_pos h]
  · unfold pollEmits
    rw [if_pos h]
  · unfold pollStep
    by_cases h : tr.transactionHash ∈ st.seen
    · rw [if_pos h]
      exact h
    · rw [if_neg h]
      show tr.transactionHash ∈ trimSeen (st.seen ++ [tr.transactionHash])
      unfold trimSeen
      by_cases ht : 10000 < (st.seen ++ [tr.transactionHash]).length
      · rw [if_pos ht]
        exact mem_takeLast_append_singleton 5000 (by norm_num) _ _
      · rw [if_neg ht]
        exact List.mem_append_right _ (List.mem_singleton.2 rfl)

/-- Witness for the amended C2: a duplicate hash already in the seen-set is
skipped, and a push event passes through untouched by the seen-set. -/
theorem C2_dedup_amended_witness :
    (dupTrade 1).transactionHash ∈
      (⟨[hashN 1], initState⟩ : PipelineState).seen ∧
    (pollStep ⟨[hashN 1], initState⟩ (dupTrade 1) = ⟨[hashN 1], initState⟩ ∧
      pollEmits ⟨[hashN 1], initState⟩ (dupTrade 1) = []) ∧
    (dupTrade 1).transactionHash ∈
      (pollStep ⟨[hashN 1], initState⟩ (dupTrade 1)).seen ∧
    (pushStep ⟨[hashN 1], initState⟩ ⟨"a", "m", 1, 1, "BUY", 0⟩).seen =
      (⟨[hashN 1], initState⟩ : PipelineState).seen := by
  have hmem : (dupTrade 1).transactionHash ∈
      (⟨[hashN 1], initState⟩ : PipelineState).seen := by
    show hashN 1 ∈ [hashN 1]
    exact List.mem_singleton.2 rfl
  exact ⟨hmem,
    (C2_dedup_amended ⟨[hashN 1], initState⟩ (dupTrade 1)
      ⟨"a", "m", 1, 1, "BUY", 0⟩).1 hmem,
    (C2_dedup_amended ⟨[hashN 1], initState⟩ (dupTrade 1)
      ⟨"a", "m", 1, 1, "BUY", 0⟩).2.1,
    (C2_dedup_amended ⟨[hashN 1], initState⟩ (dupTrade 1)
      ⟨"a", "m", 1, 1, "BUY", 0⟩).2.2.1⟩

end MobyDick
